import Mathlib

/-!
Verification of the withdrawal lifecycle state machine of the op-probe
repository: the withdrawal status classifier (`cmd/withdraw/list.go`),
the dispute-resolution and finalization driver (`cmd/withdraw/finalize.go`),
the prove-command gate (`cmd/withdraw/prove.go`), the versioned-nonce
decoder, the chain readiness gate (`internal/utils.go`, `bridge/utils.go`)
and the decimal formatter (`internal` FormatBigInt).

Shallow embedding conventions: uint64 block numbers, timestamps and
second-denominated durations are `Nat`; `time.Duration` differences
computed by `time.Until` are `Int` (seconds); contract addresses are `Nat`
with `0` denoting the zero address; remote reads are snapshotted into
explicit structures of facts, and each driver invocation is a pure
function of such a snapshot.
-/

namespace OpProbe

/-- Withdrawal lifecycle stages, in declaration order, from
`cmd/withdraw/list.go` lines 23-32. -/
inductive WithdrawalStatus where
  | Initialized
  | Provable
  | Proven
  | ClaimResolved
  | GameResolved
  | Finalized
  deriving DecidableEq

/-- Position of a status in the `iota` enumeration of
`cmd/withdraw/list.go` lines 25-32. -/
def statusToNat : WithdrawalStatus → Nat
  | .Initialized => 0
  | .Provable => 1
  | .Proven => 2
  | .ClaimResolved => 3
  | .GameResolved => 4
  | .Finalized => 5

/-- Snapshot of the on-chain facts the `list` command's per-withdrawal
classification loop (`cmd/withdraw/list.go` lines 140-219) reads:
the latest anchored game's claimed L2 block number, the withdrawal's
source-domain block number (`receipt.BlockNumber`), the
`ProvenWithdrawals` record (timestamp and dispute-game proxy address),
and the game's `resolvedSubgames(0)` flag. -/
structure Snapshot where
  gameL2BlockNumber : Nat
  wdBlockNumber : Nat
  provenTimestamp : Nat
  provenGameProxy : Nat
  isClaimResolved : Bool
  deriving DecidableEq

/-- The status classification of `cmd/withdraw/list.go` lines 142-219:
start at `Initialized`; promote to `Provable` when
`gameL2BlockNumber.Uint64() >= receipt.BlockNumber.Uint64()` (line 156);
when `Provable`, read `ProvenWithdrawals` and promote to `Proven` when
`proven.DisputeGameProxy` is not the zero address (line 177); inside that
branch promote to `ClaimResolved` when `resolvedSubgames(0)` holds
(lines 209-216). The proven timestamp is recorded for display but not
branched on. -/
def ListCommandClassify (s : Snapshot) : WithdrawalStatus :=
  if s.wdBlockNumber ≤ s.gameL2BlockNumber then
    if s.provenGameProxy ≠ 0 then
      if s.isClaimResolved then .ClaimResolved else .Proven
    else .Provable
  else .Initialized

/-- The prove command's gate, `cmd/withdraw/prove.go` lines 111-113:
the command errors out (withdrawal not yet provable) exactly when
`gameL2BlockNumber.Uint64() < withdrawalTxReceipt.BlockNumber.Uint64()`. -/
def ProveCommandRejects (gameL2BlockNumber wdBlockNumber : Nat) : Bool :=
  decide (gameL2BlockNumber < wdBlockNumber)

/-- Versioned nonce decoding, `cmd/withdraw/list.go` lines 261-270 (and
identically `internal` composite lines 299-309): mask the nonce with
`(1 << 240) - 1`. -/
def DecodeVersionedNonce (nonce : Nat) : Nat :=
  let mask := (1 <<< 240) - 1
  nonce &&& mask

/-- The claim C2: the classifier leaves `Initialized` for `Provable` (or
beyond) exactly when the anchored game's claimed L2 block number is at
least the withdrawal's source block number; equality counts as provable,
and the prove command's gate likewise lets the equality case through. -/
theorem listCommand_provable_iff_c2 (s : Snapshot) :
    (statusToNat .Provable ≤ statusToNat (ListCommandClassify s) ↔
      s.wdBlockNumber ≤ s.gameL2BlockNumber) ∧
    (s.gameL2BlockNumber = s.wdBlockNumber →
      statusToNat .Provable ≤ statusToNat (ListCommandClassify s)) ∧
    (ProveCommandRejects s.gameL2BlockNumber s.wdBlockNumber = false ↔
      s.wdBlockNumber ≤ s.gameL2BlockNumber) := by
  unfold ListCommandClassify ProveCommandRejects
  refine ⟨?_, ?_, ?_⟩
  · split
    · split
      · split <;> simp [statusToNat] <;> omega
      · simp [statusToNat]; omega
    · simp [statusToNat]; omega
  · intro h
    split
    · split
      · split <;> simp [statusToNat]
      · simp [statusToNat]
    · omega
  · simp

/-- Witness for C2 at a concrete snapshot with equal block numbers. -/
theorem listCommand_provable_iff_c2_witness :
    statusToNat .Provable ≤ statusToNat (ListCommandClassify ⟨7, 7, 0, 0, false⟩) :=
  (listCommand_provable_iff_c2 ⟨7, 7, 0, 0, false⟩).2.1 rfl

/-- Counterexample to the claim C3 as stated: a snapshot whose proven
record has a zero timestamp but a non-null dispute-game proxy is
classified `Proven`, not kept below `Proven` — the classifier never
consults the timestamp. -/
theorem listCommand_proven_zero_timestamp_c3_cex :
    ListCommandClassify ⟨5, 5, 0, 1, false⟩ = WithdrawalStatus.Proven ∧
    (⟨5, 5, 0, 1, false⟩ : Snapshot).provenTimestamp = 0 := by
  constructor <;> rfl

/-- The claim C3 as amended: the classifier promotes a provable
withdrawal to `Proven` (or beyond) exactly when the proven record's
dispute-game proxy is non-null; the proven timestamp does not influence
the classification at all. -/
theorem listCommand_proven_iff_c3 (s : Snapshot) (t : Nat) :
    (statusToNat .Proven ≤ statusToNat (ListCommandClassify s) ↔
      s.wdBlockNumber ≤ s.gameL2BlockNumber ∧ s.provenGameProxy ≠ 0) ∧
    ListCommandClassify { s with provenTimestamp := t } = ListCommandClassify s := by
  unfold ListCommandClassify
  constructor
  · split
    · split
      · split <;> simp_all [statusToNat]
      · simp_all [statusToNat]
    · simp [statusToNat]; omega
  · rfl

/-- The claim C6: classification is monotone along advancing snapshots of
a fixed withdrawal — if the anchored game's block number does not
decrease, a set proven record stays set, and a resolved subgame stays
resolved, then the second classification is never an earlier stage. -/
theorem listCommand_monotone_c6 (s₁ s₂ : Snapshot)
    (hwd : s₁.wdBlockNumber = s₂.wdBlockNumber)
    (hgame : s₁.gameL2BlockNumber ≤ s₂.gameL2BlockNumber)
    (hproxy : s₁.provenGameProxy ≠ 0 → s₂.provenGameProxy ≠ 0)
    (hclaim : s₁.isClaimResolved = true → s₂.isClaimResolved = true) :
    statusToNat (ListCommandClassify s₁) ≤ statusToNat (ListCommandClassify s₂) := by
  unfold ListCommandClassify
  split
  · split
    · split
      · have h2 := hproxy (by assumption)
        have h3 := hclaim (by assumption)
        rw [if_pos (by omega), if_pos h2, if_pos h3]
      · have h2 := hproxy (by assumption)
        rw [if_pos (by omega), if_pos h2]
        split <;> simp [statusToNat]
    · rw [if_pos (by omega)]
      split
      · split <;> simp [statusToNat]
      · simp [statusToNat]
  · simp [statusToNat]

/-- Witness for C6 at concrete advancing snapshots. -/
theorem listCommand_monotone_c6_witness :
    statusToNat (ListCommandClassify ⟨5, 4, 0, 1, false⟩) ≤
      statusToNat (ListCommandClassify ⟨6, 4, 9, 2, true⟩) :=
  listCommand_monotone_c6 ⟨5, 4, 0, 1, false⟩ ⟨6, 4, 9, 2, true⟩ rfl
    (by decide) (fun _ => by decide) (fun _ => rfl)

/-- The claim C7: decoding a versioned nonce keeps exactly the low 240
bits, i.e. equals reduction modulo `2 ^ 240`; in particular a nonce with
only bit 240 and bits 0-3 set decodes to `15`. -/
theorem decodeVersionedNonce_c7 (n : Nat) :
    DecodeVersionedNonce n = n % 2 ^ 240 ∧
    DecodeVersionedNonce (2 ^ 240 + 15) = 15 := by
  have hmask : ∀ m : Nat, DecodeVersionedNonce m = m % 2 ^ 240 := by
    intro m
    unfold DecodeVersionedNonce
    simp only [Nat.shiftLeft_eq, one_mul]
    exact Nat.and_pow_two_sub_one_eq_mod m 240
  refine ⟨hmask n, ?_⟩
  rw [hmask]
  omega

/-- Snapshot of the on-chain facts one invocation of the finalize
command's driver (`cmd/withdraw/finalize.go` lines 117-315) reads:
the `ProvenWithdrawals` timestamp, the dispute game's
`resolvedSubgames(0)` flag, `getChallengerDuration(0)` and
`maxClockDuration()` (seconds), its `resolvedAt` timestamp, the portal's
two delay parameters (seconds), its `finalizedWithdrawals` flag, the
outcome of the `checkWithdrawal` dry run, and the current time. -/
structure FinalizeFacts where
  provenTimestamp : Nat
  isClaimResolved : Bool
  challengerDuration : Nat
  maxClockDuration : Nat
  gameResolvedAt : Nat
  proofMaturityDelay : Nat
  gameFinalityDelay : Nat
  finalized : Bool
  checkWithdrawalOk : Bool
  now : Nat
  deriving DecidableEq

/-- Proof maturity time, `cmd/withdraw/finalize.go` line 247:
`provenTimestamp.Add(proofMaturityDelay)`. -/
def proofMaturityTime (f : FinalizeFacts) : Nat :=
  f.provenTimestamp + f.proofMaturityDelay

/-- Finality time, `cmd/withdraw/finalize.go` line 248:
`disputeGameResolvedAtTime.Add(finalityDelay)`. -/
def finalityTime (f : FinalizeFacts) : Nat :=
  f.gameResolvedAt + f.gameFinalityDelay

/-- Remaining wait until proof maturity, `cmd/withdraw/finalize.go`
line 249: `time.Until(proofMaturityTime)`, in seconds. -/
def untilProofMaturity (f : FinalizeFacts) : Int :=
  (proofMaturityTime f : Int) - (f.now : Int)

/-- Remaining wait until game finality, `cmd/withdraw/finalize.go`
line 250: `time.Until(finalityDelayTime)`, in seconds. -/
def untilFinality (f : FinalizeFacts) : Int :=
  (finalityTime f : Int) - (f.now : Int)

/-- The finalization gate's closed test, `cmd/withdraw/finalize.go`
line 252: `untilProofMaturityTime > 0 || untilFinalityDelayTime > 0`. -/
def finalizeGateClosed (f : FinalizeFacts) : Bool :=
  decide (untilProofMaturity f > 0) || decide (untilFinality f > 0)

/-- Outcome of one invocation of the finalize command's driver. Each
`submitted*` outcome denotes that the invocation chose, built and
submitted exactly that transaction and then returned (transaction
receipt waiting is abstracted); `notProven` and `checkFailed` are the
error returns; the remaining outcomes are the informational `return nil`
paths that take no on-chain action. -/
inductive FinalizeOutcome where
  | notProven
  | waitingChallenger (challengerDuration maxClockDuration : Nat)
  | submittedResolveClaim
  | submittedResolve
  | waitingDelays (untilMaturity untilFinalityDelay : Int)
  | alreadyFinalized
  | checkFailed
  | submittedFinalize
  deriving DecidableEq

/-- Which outcomes are error returns (`fmt.Errorf`) rather than
`return nil`, following the return statements in
`cmd/withdraw/finalize.go` lines 126-127, 167, 193, 225, 259, 275, 284
and 338. -/
def outcomeIsError : FinalizeOutcome → Bool
  | .notProven => true
  | .checkFailed => true
  | _ => false

/-- One invocation of the finalize command's decision logic,
`cmd/withdraw/finalize.go` lines 126-315, as a function of the snapshot
of facts it reads, in source order: error when the withdrawal is
unproven (line 126); when no subgame is resolved (line 153), wait if the
challenger duration is below the max clock duration (line 162) else
submit `resolveClaim` and return (lines 175-193); when the game is
unresolved (line 204) submit `resolve` and return (lines 207-225); wait
while either delay has not elapsed (line 252); return when the
withdrawal is already finalized (line 273); error when the
`checkWithdrawal` dry run fails (line 281); otherwise submit the
finalization transaction (lines 303-315). -/
def FinalizeCommandDriver (f : FinalizeFacts) : FinalizeOutcome :=
  if f.provenTimestamp = 0 then .notProven
  else if f.isClaimResolved = false then
    if f.challengerDuration < f.maxClockDuration then
      .waitingChallenger f.challengerDuration f.maxClockDuration
    else .submittedResolveClaim
  else if f.gameResolvedAt = 0 then .submittedResolve
  else if finalizeGateClosed f then
    .waitingDelays (untilProofMaturity f) (untilFinality f)
  else if f.finalized then .alreadyFinalized
  else if f.checkWithdrawalOk = false then .checkFailed
  else .submittedFinalize

/-- The three transaction kinds the finalize command can submit. -/
inductive Tx where
  | resolveClaim
  | resolve
  | finalizeWithdrawal
  deriving DecidableEq

/-- Transactions submitted during one invocation, read off the driver's
outcome: every submission site in `cmd/withdraw/finalize.go` is followed
by a `return`, so an invocation submits at most one transaction. -/
def txsOfOutcome : FinalizeOutcome → List Tx
  | .submittedResolveClaim => [.resolveClaim]
  | .submittedResolve => [.resolve]
  | .submittedFinalize => [.finalizeWithdrawal]
  | _ => []

/-- Transactions one invocation of the finalize command submits. -/
def FinalizeCommandTxs (f : FinalizeFacts) : List Tx :=
  txsOfOutcome (FinalizeCommandDriver f)

/-- The claim C1: for a proven withdrawal whose subgame and game are
resolved, the finalization gate is open exactly when the current time
has reached both the proof maturity time and the finality time; at the
boundary, when now equals the later of the two times, the gate is open;
and while the gate is closed the driver submits nothing and reports the
two remaining waits distinctly. -/
theorem finalizeCommand_gate_c1 (f : FinalizeFacts)
    (hp : f.provenTimestamp ≠ 0)
    (hc : f.isClaimResolved = true)
    (hr : f.gameResolvedAt ≠ 0) :
    (finalizeGateClosed f = false ↔
      proofMaturityTime f ≤ f.now ∧ finalityTime f ≤ f.now) ∧
    (f.now = max (proofMaturityTime f) (finalityTime f) →
      finalizeGateClosed f = false) ∧
    (finalizeGateClosed f = true →
      FinalizeCommandDriver f =
        FinalizeOutcome.waitingDelays (untilProofMaturity f) (untilFinality f) ∧
      FinalizeCommandTxs f = []) := by
  have hgate : finalizeGateClosed f = false ↔
      proofMaturityTime f ≤ f.now ∧ finalityTime f ≤ f.now := by
    unfold finalizeGateClosed untilProofMaturity untilFinality
    constructor
    · intro h
      simp only [Bool.or_eq_false_iff, decide_eq_false_iff_not] at h
      omega
    · intro h
      simp only [Bool.or_eq_false_iff, decide_eq_false_iff_not]
      omega
  refine ⟨hgate, ?_, ?_⟩
  · intro hmax
    rw [hgate]
    omega
  · intro hclosed
    have hout : FinalizeCommandDriver f =
        FinalizeOutcome.waitingDelays (untilProofMaturity f) (untilFinality f) := by
      unfold FinalizeCommandDriver
      rw [if_neg hp, hc]
      simp only [Bool.true_eq_false, if_neg, if_false]
      rw [if_neg hr, if_pos hclosed]
    exact ⟨hout, by rw [FinalizeCommandTxs, hout]; rfl⟩

/-- Witness for C1: the spec's boundary scenario
(`provenTimestamp = 1000`, `proofMaturityDelay = 100`,
`gameResolvedAt = 1050`, `gameFinalityDelay = 40`) is closed at
`now = 1099` with waits `1` and `-9`, and the gate is open at
`now = 1100`. -/
theorem finalizeCommand_gate_c1_witness :
    FinalizeCommandDriver ⟨1000, true, 0, 0, 1050, 100, 40, false, true, 1099⟩ =
      FinalizeOutcome.waitingDelays 1 (-9) ∧
    finalizeGateClosed ⟨1000, true, 0, 0, 1050, 100, 40, false, true, 1100⟩ = false := by
  constructor
  · exact ((finalizeCommand_gate_c1 ⟨1000, true, 0, 0, 1050, 100, 40, false, true, 1099⟩
      (by decide) rfl (by decide)).2.2 (by decide)).1
  · exact (finalizeCommand_gate_c1 ⟨1000, true, 0, 0, 1050, 100, 40, false, true, 1100⟩
      (by decide) rfl (by decide)).2.1 (by decide)

/-- The claim C4: for a proven withdrawal whose dispute game has no
resolved subgame, the driver waits (submitting nothing) while the
challenger duration is strictly below the maximum clock duration, and
submits the claim-resolution transaction once the challenger duration
has reached it, equality included. -/
theorem finalizeCommand_subgame_c4 (f : FinalizeFacts)
    (hp : f.provenTimestamp ≠ 0)
    (hc : f.isClaimResolved = false) :
    (f.challengerDuration < f.maxClockDuration →
      FinalizeCommandDriver f =
        FinalizeOutcome.waitingChallenger f.challengerDuration f.maxClockDuration ∧
      FinalizeCommandTxs f = []) ∧
    (f.maxClockDuration ≤ f.challengerDuration →
      FinalizeCommandDriver f = FinalizeOutcome.submittedResolveClaim ∧
      FinalizeCommandTxs f = [Tx.resolveClaim]) := by
  constructor
  · intro hlt
    have hout : FinalizeCommandDriver f =
        FinalizeOutcome.waitingChallenger f.challengerDuration f.maxClockDuration := by
      unfold FinalizeCommandDriver
      rw [if_neg hp, hc, if_pos rfl, if_pos hlt]
    exact ⟨hout, by rw [FinalizeCommandTxs, hout]; rfl⟩
  · intro hge
    have hout : FinalizeCommandDriver f = FinalizeOutcome.submittedResolveClaim := by
      unfold FinalizeCommandDriver
      rw [if_neg hp, hc, if_pos rfl, if_neg (by omega)]
    exact ⟨hout, by rw [FinalizeCommandTxs, hout]; rfl⟩

/-- Witness for C4: waiting strictly below the max clock duration, and
submission exactly at the boundary where the durations are equal. -/
theorem finalizeCommand_subgame_c4_witness :
    FinalizeCommandDriver ⟨1, false, 3, 10, 0, 0, 0, false, true, 0⟩ =
      FinalizeOutcome.waitingChallenger 3 10 ∧
    FinalizeCommandDriver ⟨1, false, 10, 10, 0, 0, 0, false, true, 0⟩ =
      FinalizeOutcome.submittedResolveClaim := by
  constructor
  · exact ((finalizeCommand_subgame_c4 ⟨1, false, 3, 10, 0, 0, 0, false, true, 0⟩
      (by decide) rfl).1 (by decide)).1
  · exact ((finalizeCommand_subgame_c4 ⟨1, false, 10, 10, 0, 0, 0, false, true, 0⟩
      (by decide) rfl).2 (by decide)).1

/-- Counterexample to the claim C5 as stated: with the challenge window
elapsed and neither the subgame nor the game resolved, a single
invocation submits only the claim-resolution transaction — the
game-resolution transaction is not submitted in that invocation. -/
theorem finalizeCommand_sequence_c5_cex :
    FinalizeCommandTxs ⟨1, false, 10, 10, 0, 5, 5, false, true, 0⟩ = [Tx.resolveClaim] ∧
    Tx.resolve ∉ FinalizeCommandTxs ⟨1, false, 10, 10, 0, 5, 5, false, true, 0⟩ := by
  constructor
  · rfl
  · decide

/-- The claim C5 as amended: when the challenge window has elapsed and
neither the subgame nor the game is resolved, one invocation submits
only the claim-resolution transaction and exits; the game-resolution
transaction is submitted by the next invocation, once the subgame is
observed resolved. -/
theorem finalizeCommand_sequence_c5 (f : FinalizeFacts)
    (hp : f.provenTimestamp ≠ 0)
    (hc : f.isClaimResolved = false)
    (hd : f.maxClockDuration ≤ f.challengerDuration)
    (hr : f.gameResolvedAt = 0) :
    FinalizeCommandTxs f = [Tx.resolveClaim] ∧
    FinalizeCommandTxs { f with isClaimResolved := true } = [Tx.resolve] := by
  constructor
  · have hout : FinalizeCommandDriver f = FinalizeOutcome.submittedResolveClaim := by
      unfold FinalizeCommandDriver
      rw [if_neg hp, hc, if_pos rfl, if_neg (by omega)]
    rw [FinalizeCommandTxs, hout]; rfl
  · have hout : FinalizeCommandDriver { f with isClaimResolved := true } =
        FinalizeOutcome.submittedResolve := by
      unfold FinalizeCommandDriver
      rw [if_neg hp]
      simp only [Bool.true_eq_false, if_neg, if_false]
      rw [if_pos hr]
    rw [FinalizeCommandTxs, hout]; rfl

/-- Witness for the amended C5 at a concrete snapshot. -/
theorem finalizeCommand_sequence_c5_witness :
    FinalizeCommandTxs ⟨1, false, 12, 10, 0, 5, 5, false, true, 0⟩ = [Tx.resolveClaim] ∧
    FinalizeCommandTxs ⟨1, true, 12, 10, 0, 5, 5, false, true, 0⟩ = [Tx.resolve] :=
  finalizeCommand_sequence_c5 ⟨1, false, 12, 10, 0, 5, 5, false, true, 0⟩
    (by decide) rfl (by decide) rfl

/-- The claim C10: when the gate is open and the portal already reports
the withdrawal finalized, the driver exits without error and submits no
transaction in that invocation. -/
theorem finalizeCommand_alreadyFinalized_c10 (f : FinalizeFacts)
    (hp : f.provenTimestamp ≠ 0)
    (hc : f.isClaimResolved = true)
    (hr : f.gameResolvedAt ≠ 0)
    (hg : finalizeGateClosed f = false)
    (hf : f.finalized = true) :
    FinalizeCommandDriver f = FinalizeOutcome.alreadyFinalized ∧
    outcomeIsError (FinalizeCommandDriver f) = false ∧
    FinalizeCommandTxs f = [] := by
  have hout : FinalizeCommandDriver f = FinalizeOutcome.alreadyFinalized := by
    unfold FinalizeCommandDriver
    rw [if_neg hp, hc]
    simp only [Bool.true_eq_false, if_neg, if_false]
    rw [if_neg hr, hg]
    simp only [Bool.false_eq_true, if_false]
    rw [if_pos hf]
  refine ⟨hout, ?_, ?_⟩
  · rw [hout]; rfl
  · rw [FinalizeCommandTxs, hout]; rfl

/-- Witness for C10 at a concrete snapshot with the gate open and the
withdrawal already finalized. -/
theorem finalizeCommand_alreadyFinalized_c10_witness :
    FinalizeCommandDriver ⟨1000, true, 0, 0, 1050, 100, 40, true, true, 1100⟩ =
      FinalizeOutcome.alreadyFinalized :=
  (finalizeCommand_alreadyFinalized_c10 ⟨1000, true, 0, 0, 1050, 100, 40, true, true, 1100⟩
    (by decide) rfl (by decide) (by decide) rfl).1

/-- Readiness test of one header observation, `internal/utils.go`
line 68 (identically `bridge/utils.go` line 71): an endpoint reports
block production when `header.Number.Uint64() > 0`; a failed header
fetch (`none`) reports nothing. -/
def reportsProduction : Option Nat → Bool
  | some bn => decide (0 < bn)
  | none => false

/-- One ticker sweep of `WaitForChainsStart`, `internal/utils.go`
lines 56-71: endpoints already marked ready are skipped (their entry is
kept), a header error leaves the entry unchanged, and an endpoint whose
head exceeds zero is marked ready. `ready` and `obs` are indexed by
endpoint. -/
def pollTick (ready : List Bool) (obs : List (Option Nat)) : List Bool :=
  List.zipWith (fun r o => r || reportsProduction o) ready obs

/-- The all-clients-ready test, `internal/utils.go` line 74:
`len(readyClients) == len(clients)` (entries are only ever added as
`true`). -/
def allReady (ready : List Bool) : Bool :=
  ready.all (fun r => r)

/-- Ready set after a sequence of ticker sweeps. -/
def readyAfter (ticks : List (List (Option Nat))) (ready : List Bool) : List Bool :=
  ticks.foldl pollTick ready

/-- The readiness polling loop of `internal/utils.go` lines 44-79 (and
`bridge/utils.go` lines 47-82): `ticks` is the list of header
observations delivered by the ticker before the context deadline fires,
one inner list per sweep; the loop returns `true` (nil) once all
endpoints are ready — checked after each sweep — and `false` (the
timeout error) when the deadline fires first. -/
def WaitForChainsStart : List (List (Option Nat)) → List Bool → Bool
  | [], _ => false
  | obs :: rest, ready =>
    let ready2 := pollTick ready obs
    if allReady ready2 then true else WaitForChainsStart rest ready2

/-- The endpoints actually polled in one sweep, `internal/utils.go`
lines 58-60: clients already in the ready set are skipped. -/
def polledIndices (ready : List Bool) : List Nat :=
  (List.range ready.length).filter (fun i => !(ready.getD i false))

theorem pollTick_length (ready : List Bool) (obs : List (Option Nat))
    (h : obs.length = ready.length) : (pollTick ready obs).length = ready.length := by
  simp [pollTick, h]

theorem getD_pollTick (ready : List Bool) (obs : List (Option Nat))
    (h : obs.length = ready.length) (i : Nat) (hi : i < ready.length) :
    (pollTick ready obs).getD i false =
      (ready.getD i false || reportsProduction (obs.getD i none)) := by
  simp only [pollTick, List.getD_eq_getElem?_getD, List.getElem?_zipWith,
    List.getElem?_eq_getElem hi, List.getElem?_eq_getElem (show i < obs.length by omega)]
  rfl

theorem allReady_iff_getD (ready : List Bool) :
    allReady ready = true ↔ ∀ i < ready.length, ready.getD i false = true := by
  rw [allReady, List.all_eq_true]
  constructor
  · intro h i hi
    have hmem := List.getElem_mem (l := ready) (n := i) hi
    have := h _ hmem
    simpa [List.getD_eq_getElem?_getD, List.getElem?_eq_getElem hi] using this
  · intro h x hx
    obtain ⟨i, hi, rfl⟩ := List.mem_iff_getElem.mp hx
    have := h i hi
    simpa [List.getD_eq_getElem?_getD, List.getElem?_eq_getElem hi] using this

theorem allReady_pollTick (ready : List Bool) (obs : List (Option Nat))
    (h : obs.length = ready.length) (hall : allReady ready = true) :
    allReady (pollTick ready obs) = true := by
  rw [allReady_iff_getD] at hall ⊢
  intro i hi
  rw [pollTick_length ready obs h] at hi
  rw [getD_pollTick ready obs h i hi, hall i hi, Bool.true_or]

theorem readyAfter_length (ticks : List (List (Option Nat))) (ready : List Bool)
    (hlen : ∀ obs ∈ ticks, obs.length = ready.length) :
    (readyAfter ticks ready).length = ready.length := by
  induction ticks generalizing ready with
  | nil => rfl
  | cons obs rest ih =>
    have h0 : obs.length = ready.length := hlen obs (List.mem_cons_self obs rest)
    have h1 : (pollTick ready obs).length = ready.length := pollTick_length ready obs h0
    have h2 : ∀ o ∈ rest, o.length = (pollTick ready obs).length := by
      intro o ho
      rw [h1]
      exact hlen o (List.mem_cons_of_mem obs ho)
    calc (readyAfter (obs :: rest) ready).length
        = (readyAfter rest (pollTick ready obs)).length := rfl
      _ = (pollTick ready obs).length := ih (pollTick ready obs) h2
      _ = ready.length := h1

theorem allReady_readyAfter (ticks : List (List (Option Nat))) (ready : List Bool)
    (hlen : ∀ obs ∈ ticks, obs.length = ready.length) (hall : allReady ready = true) :
    allReady (readyAfter ticks ready) = true := by
  induction ticks generalizing ready with
  | nil => exact hall
  | cons obs rest ih =>
    have h0 : obs.length = ready.length := hlen obs (List.mem_cons_self obs rest)
    have h1 : (pollTick ready obs).length = ready.length := pollTick_length ready obs h0
    have h2 : ∀ o ∈ rest, o.length = (pollTick ready obs).length := by
      intro o ho
      rw [h1]
      exact hlen o (List.mem_cons_of_mem obs ho)
    exact ih (pollTick ready obs) h2 (allReady_pollTick ready obs h0 hall)

theorem getD_readyAfter (ticks : List (List (Option Nat))) (ready : List Bool)
    (hlen : ∀ obs ∈ ticks, obs.length = ready.length) (i : Nat) (hi : i < ready.length) :
    (readyAfter ticks ready).getD i false =
      (ready.getD i false ||
        ticks.any (fun obs => reportsProduction (obs.getD i none))) := by
  induction ticks generalizing ready with
  | nil => simp [readyAfter]
  | cons obs rest ih =>
    have h0 : obs.length = ready.length := hlen obs (List.mem_cons_self obs rest)
    have h1 : (pollTick ready obs).length = ready.length := pollTick_length ready obs h0
    have h2 : ∀ o ∈ rest, o.length = (pollTick ready obs).length := by
      intro o ho
      rw [h1]
      exact hlen o (List.mem_cons_of_mem obs ho)
    have h3 : i < (pollTick ready obs).length := by omega
    calc (readyAfter (obs :: rest) ready).getD i false
        = (readyAfter rest (pollTick ready obs)).getD i false := rfl
      _ = ((pollTick ready obs).getD i false ||
            rest.any (fun o => reportsProduction (o.getD i none))) :=
          ih (pollTick ready obs) h2 h3
      _ = _ := by
          rw [getD_pollTick ready obs h0 i hi, List.any_cons, Bool.or_assoc]

/-- The claim C8: the readiness gate returns success exactly when the
deadline grants at least one sweep and, over the delivered sweeps, every
endpoint has reported a head with block number strictly above zero
(endpoints already ready stay ready — the ready set is monotone);
otherwise the deadline fires first and the timeout is returned. An
endpoint already marked ready is never polled again, and a per-poll
header error leaves that endpoint's state unchanged without aborting the
sweep. -/
theorem waitForChainsStart_c8 (ticks : List (List (Option Nat))) (r0 : List Bool)
    (hlen : ∀ obs ∈ ticks, obs.length = r0.length) :
    (WaitForChainsStart ticks r0 = true ↔
      ticks ≠ [] ∧ allReady (readyAfter ticks r0) = true) ∧
    (∀ i, i < r0.length →
      (readyAfter ticks r0).getD i false =
        (r0.getD i false ||
          ticks.any (fun obs => reportsProduction (obs.getD i none)))) ∧
    (∀ (ready : List Bool) (i : Nat),
      ready.getD i false = true → i ∉ polledIndices ready) ∧
    (∀ (ready : List Bool) (obs : List (Option Nat)) (i : Nat),
      obs.length = ready.length → i < ready.length → obs.getD i none = none →
      (pollTick ready obs).getD i false = ready.getD i false) := by
  refine ⟨?_, fun i hi => getD_readyAfter ticks r0 hlen i hi, ?_, ?_⟩
  · induction ticks generalizing r0 with
    | nil => simp [WaitForChainsStart]
    | cons obs rest ih =>
      have h0 : obs.length = r0.length := hlen obs (List.mem_cons_self obs rest)
      have h1 : (pollTick r0 obs).length = r0.length := pollTick_length r0 obs h0
      have h2 : ∀ o ∈ rest, o.length = (pollTick r0 obs).length := by
        intro o ho
        rw [h1]
        exact hlen o (List.mem_cons_of_mem obs ho)
      show (if allReady (pollTick r0 obs) then true
          else WaitForChainsStart rest (pollTick r0 obs)) = true ↔ _
      by_cases hall : allReady (pollTick r0 obs) = true
      · rw [if_pos hall]
        simp only [true_iff]
        exact ⟨List.cons_ne_nil obs rest,
          allReady_readyAfter rest (pollTick r0 obs) h2 hall⟩
      · rw [if_neg (by simpa using hall)]
        rw [ih (pollTick r0 obs) h2]
        have hra : readyAfter (obs :: rest) r0 = readyAfter rest (pollTick r0 obs) := rfl
        rw [hra]
        cases rest with
        | nil =>
          simp only [readyAfter, List.foldl_nil]
          simp [hall]
        | cons o2 rest2 =>
          simp [List.cons_ne_nil]
  · intro ready i ht
    simp only [polledIndices, List.mem_filter, List.mem_range, Bool.not_eq_eq_eq_not,
      Bool.not_true, not_and]
    intro _
    rw [List.getD_eq_getElem?_getD] at ht
    simp [ht]
  · intro ready obs i h hi hnone
    rw [getD_pollTick ready obs h i hi, hnone]
    simp [reportsProduction]

/-- Witness for C8: two endpoints, one header error tolerated on the
first sweep, success on the second sweep. -/
theorem waitForChainsStart_c8_witness :
    WaitForChainsStart [[some 1, none], [some 0, some 2]] [false, false] = true :=
  (waitForChainsStart_c8 [[some 1, none], [some 0, some 2]] [false, false]
    (by decide)).1.mpr ⟨by decide, by decide⟩

/-- Big-endian decimal digit list of a natural number, modelling Go's
`big.Int.String()` on nonnegative values: `0` prints as the single
digit `0`, any other value as its digits most-significant-first. -/
def natDigitsBE (n : Nat) : List Nat :=
  if n = 0 then [0] else (Nat.digits 10 n).reverse

/-- Trailing-zero trimming of a digit string,
`strings.TrimRight(paddedRemainderStr, "0")` in `FormatBigInt`. -/
def trimTrailingZeros (l : List Nat) : List Nat :=
  (l.reverse.dropWhile (fun d => d == 0)).reverse

/-- The decimal string printed by `FormatBigInt`, represented
structurally: the sign, the digits before the decimal point, and the
digits after it (`[]` when no point is printed). -/
structure DecStr where
  neg : Bool
  intDigits : List Nat
  fracDigits : List Nat
  deriving DecidableEq

/-- `FormatBigInt` (`internal` FormatBigInt, unnamed part_000
lines 15-64): take the absolute value, split it by `10 ^ baseDecimals`
into integer part and remainder; with zero remainder print only the
integer part; otherwise pad the remainder's digits with leading zeros to
`baseDecimals` places, trim trailing zeros, and print the result after a
decimal point unless the trim consumed everything; a negative amount is
prefixed with a minus sign. -/
def FormatBigInt (amount : Int) (baseDecimals : Nat) : DecStr :=
  let value := amount.natAbs
  let negative := decide (amount < 0)
  let divisor := 10 ^ baseDecimals
  let intPart := value / divisor
  let remainder := value % divisor
  if remainder = 0 then
    ⟨negative, natDigitsBE intPart, []⟩
  else
    let remainderStr := natDigitsBE remainder
    let paddedRemainderStr :=
      List.replicate (baseDecimals - remainderStr.length) 0 ++ remainderStr
    let trimmedDecimal := trimTrailingZeros paddedRemainderStr
    if trimmedDecimal = [] then ⟨negative, natDigitsBE intPart, []⟩
    else ⟨negative, natDigitsBE intPart, trimmedDecimal⟩

/-- Value of a big-endian digit list. -/
def ofDigitsBE (l : List Nat) : Nat :=
  Nat.ofDigits 10 l.reverse

/-- Modelled from the spec: the repository contains only the formatter;
spec section 8 item 7 demands that "re-parsing the printed string must
reconstruct the original integer exactly". This is the standard reading
of a fixed-point decimal string with `baseDecimals` base decimals: the
integer-part digits scaled by `10 ^ baseDecimals`, plus the fractional
digits scaled up to `baseDecimals` places, negated under a minus sign. -/
def ParseDecStr (d : DecStr) (baseDecimals : Nat) : Int :=
  let mag : Nat := ofDigitsBE d.intDigits * 10 ^ baseDecimals +
    ofDigitsBE d.fracDigits * 10 ^ (baseDecimals - d.fracDigits.length)
  if d.neg then -(mag : Int) else (mag : Int)

theorem ofDigitsBE_natDigitsBE (n : Nat) : ofDigitsBE (natDigitsBE n) = n := by
  unfold ofDigitsBE natDigitsBE
  by_cases h : n = 0
  · subst h
    simp [Nat.ofDigits_cons, Nat.ofDigits_nil]
  · rw [if_neg h, List.reverse_reverse, Nat.ofDigits_digits]

theorem ofDigits_replicate_zero (k : Nat) :
    Nat.ofDigits 10 (List.replicate k 0) = 0 := by
  induction k with
  | zero => simp
  | succ k ih => simp [List.replicate_succ, Nat.ofDigits_cons, ih]

theorem ofDigits_eq_dropWhile_mul_pow (l : List Nat) :
    Nat.ofDigits 10 l =
      Nat.ofDigits 10 (l.dropWhile (fun d => d == 0)) *
        10 ^ (l.length - (l.dropWhile (fun d => d == 0)).length) := by
  induction l with
  | nil => simp
  | cons a t ih =>
    by_cases ha : a = 0
    · subst ha
      rw [List.dropWhile_cons_of_pos (by simp)]
      have hle : (t.dropWhile (fun d => d == 0)).length ≤ t.length :=
        (List.dropWhile_suffix _).length_le
      have hlen : (0 :: t).length - (t.dropWhile (fun d => d == 0)).length
          = (t.length - (t.dropWhile (fun d => d == 0)).length) + 1 := by
        simp only [List.length_cons]
        omega
      rw [hlen, Nat.ofDigits_cons, ih, pow_succ]
      ring
    · rw [List.dropWhile_cons_of_neg (by simp [ha])]
      simp

theorem digits_length_le_of_lt_pow {r N : Nat} (hr : r ≠ 0) (hlt : r < 10 ^ N) :
    (Nat.digits 10 r).length ≤ N := by
  have h1 : 10 ^ (Nat.digits 10 r).length ≤ 10 * r :=
    Nat.base_pow_length_digits_le 10 r (by norm_num) hr
  by_contra hcon
  push_neg at hcon
  have h2 : 10 ^ (N + 1) ≤ 10 ^ (Nat.digits 10 r).length :=
    Nat.pow_le_pow_right (by norm_num) hcon
  rw [pow_succ] at h2
  omega

theorem padded_frac_spec (r N : Nat) (hr : r ≠ 0) (hlt : r < 10 ^ N) :
    trimTrailingZeros
        (List.replicate (N - (natDigitsBE r).length) 0 ++ natDigitsBE r) ≠ [] ∧
    ofDigitsBE (trimTrailingZeros
        (List.replicate (N - (natDigitsBE r).length) 0 ++ natDigitsBE r)) *
      10 ^ (N - (trimTrailingZeros
        (List.replicate (N - (natDigitsBE r).length) 0 ++ natDigitsBE r)).length) = r := by
  have hlen : (Nat.digits 10 r).length ≤ N := digits_length_le_of_lt_pow hr hlt
  simp only [natDigitsBE, if_neg hr, List.length_reverse, trimTrailingZeros,
    List.reverse_append, List.reverse_reverse, List.reverse_replicate]
  have hkey := ofDigits_eq_dropWhile_mul_pow
    (Nat.digits 10 r ++ List.replicate (N - (Nat.digits 10 r).length) 0)
  have hofL : Nat.ofDigits 10
      (Nat.digits 10 r ++ List.replicate (N - (Nat.digits 10 r).length) 0) = r := by
    rw [Nat.ofDigits_append, Nat.ofDigits_digits, ofDigits_replicate_zero]
    simp
  have hLlen : (Nat.digits 10 r ++
      List.replicate (N - (Nat.digits 10 r).length) 0).length = N := by
    simp only [List.length_append, List.length_replicate]
    omega
  rw [hofL, hLlen] at hkey
  constructor
  · intro hnil
    rw [List.reverse_eq_nil_iff] at hnil
    rw [hnil] at hkey
    simp [Nat.ofDigits_nil] at hkey
    omega
  · simp only [ofDigitsBE, List.reverse_reverse, List.length_reverse]
    exact hkey.symm

theorem parseDecStr_mk (neg : Bool) (ints fracs : List Nat) (N m : Nat)
    (hm : ofDigitsBE ints * 10 ^ N +
      ofDigitsBE fracs * 10 ^ (N - fracs.length) = m) :
    ParseDecStr ⟨neg, ints, fracs⟩ N = if neg then -(m : Int) else (m : Int) := by
  simp only [ParseDecStr]
  rw [hm]

/-- The claim C9: formatting any integer amount with any number of base
decimals and re-parsing the printed decimal string reconstructs the
original integer exactly — positive, negative or zero, with or without
a fractional part. -/
theorem formatBigInt_roundTrip_c9 (amount : Int) (baseDecimals : Nat) :
    ParseDecStr (FormatBigInt amount baseDecimals) baseDecimals = amount := by
  have hDpos : 0 < 10 ^ baseDecimals := pow_pos (by norm_num) baseDecimals
  by_cases hr : amount.natAbs % 10 ^ baseDecimals = 0
  · have hfmt : FormatBigInt amount baseDecimals =
        ⟨decide (amount < 0), natDigitsBE (amount.natAbs / 10 ^ baseDecimals), []⟩ := by
      simp only [FormatBigInt]
      rw [if_pos hr]
    have hmag : ofDigitsBE (natDigitsBE (amount.natAbs / 10 ^ baseDecimals)) *
        10 ^ baseDecimals +
        ofDigitsBE [] * 10 ^ (baseDecimals - ([] : List Nat).length) = amount.natAbs := by
      rw [ofDigitsBE_natDigitsBE]
      have h0 : ofDigitsBE ([] : List Nat) = 0 := rfl
      rw [h0, Nat.zero_mul, Nat.add_zero]
      exact Nat.div_mul_cancel (Nat.dvd_of_mod_eq_zero hr)
    rw [hfmt, parseDecStr_mk _ _ _ _ _ hmag]
    rcases Int.lt_or_le amount 0 with hneg | hpos
    · rw [if_pos (decide_eq_true hneg)]
      omega
    · rw [if_neg (by simp [Int.not_lt.mpr hpos])]
      omega
  · have hspec := padded_frac_spec (amount.natAbs % 10 ^ baseDecimals) baseDecimals hr
      (Nat.mod_lt _ hDpos)
    have hfmt : FormatBigInt amount baseDecimals =
        ⟨decide (amount < 0), natDigitsBE (amount.natAbs / 10 ^ baseDecimals),
          trimTrailingZeros
            (List.replicate (baseDecimals -
              (natDigitsBE (amount.natAbs % 10 ^ baseDecimals)).length) 0 ++
              natDigitsBE (amount.natAbs % 10 ^ baseDecimals))⟩ := by
      simp only [FormatBigInt]
      rw [if_neg hr, if_neg hspec.1]
    have hmag : ofDigitsBE (natDigitsBE (amount.natAbs / 10 ^ baseDecimals)) *
        10 ^ baseDecimals +
        ofDigitsBE (trimTrailingZeros
          (List.replicate (baseDecimals -
            (natDigitsBE (amount.natAbs % 10 ^ baseDecimals)).length) 0 ++
            natDigitsBE (amount.natAbs % 10 ^ baseDecimals))) *
          10 ^ (baseDecimals - (trimTrailingZeros
            (List.replicate (baseDecimals -
              (natDigitsBE (amount.natAbs % 10 ^ baseDecimals)).length) 0 ++
              natDigitsBE (amount.natAbs % 10 ^ baseDecimals))).length) = amount.natAbs := by
      rw [ofDigitsBE_natDigitsBE, hspec.2]
      have h2 := Nat.div_add_mod amount.natAbs (10 ^ baseDecimals)
      rw [Nat.mul_comm] at h2
      exact h2
    rw [hfmt, parseDecStr_mk _ _ _ _ _ hmag]
    rcases Int.lt_or_le amount 0 with hneg | hpos
    · rw [if_pos (decide_eq_true hneg)]
      omega
    · rw [if_neg (by simp [Int.not_lt.mpr hpos])]
      omega

end OpProbe
